import Mathlib

/-!
Verification of the SEx sample-browser audio pipeline against its
natural-language specification.

The development shallowly embeds the Rust sources:

* `src/fft_processor.rs` — fixed-size FFT with a carry buffer (`FftProcessor`);
* `src/waveform.rs`      — generation-tagged waveform envelope (`Waveform`);
* `src/audio.rs`         — audio-loop command handlers and the sample tap
  (`AudioLoop`, `SourcePicker`);
* `src/spectrum.rs`, `src/tuner.rs` — the two FFT-based analyzers;
* `src/visualization.rs` — the stateless fan-out transforms (`vectorscope`);
* `src/main.rs`          — file admission (`display_file`) and the
  `SelectFile` dispatch.

Samples (`f32` in the source) are embedded as rationals: every property
checked here is structural (buffer lengths, generation tags, message
sequencing, indexing), never about rounding.  External library calls with no
structural content (the rustfft transform, dB conversion, pitch naming) are
abstracted as function parameters, so every theorem holds for all of their
behaviours.  Fallible external effects (file open / decode, `try_seek`) are
parameters as well; a Rust `unwrap` panic is modelled by `Except.error`.
-/

namespace SEx

/-! ## FFT processor — `src/fft_processor.rs`

The Rust type is `FftProcessor<const FFT_SIZE: usize>` with fields
`scratch_buffer`, `fft_input_buffer`, `temporary` (the carry buffer of
un-processed samples) and the precomputed Hann `window`.  The const generic
`FFT_SIZE`, the window and the rustfft plan are embedded as parameters of
`process`; the state carries the two buffers that change between calls. -/

structure FftProcessor where
  /-- Carry buffer of pending samples (`temporary: Vec<f32>` in the source). -/
  temporary : List ℚ
  /-- Last transform output (`fft_input_buffer`, overwritten in place). -/
  fftInputBuffer : List ℚ
deriving Repr, DecidableEq

/-- `FftProcessor::new()`: `temporary` starts empty (`Vec::with_capacity`). -/
def FftProcessor.fresh : FftProcessor := { temporary := [], fftInputBuffer := [] }

/-- `FftProcessor::reset()` — clears the carry buffer only (line 30-32). -/
def FftProcessor.reset (st : FftProcessor) : FftProcessor :=
  { st with temporary := [] }

/-- `FftProcessor::process(&mut self, buffer: &[f32])` (lines 34-57).

`fftFun` stands for `self.fft.process_with_scratch`; `window` is the
precomputed Hann window.  The input is appended to the carry; when the carry
holds at least `F` samples the first `F` of them are windowed, transformed,
and drained, and the transform output is returned. -/
def FftProcessor.process (F : ℕ) (window : List ℚ) (fftFun : List ℚ → List ℚ)
    (st : FftProcessor) (buffer : List ℚ) : Option (List ℚ) × FftProcessor :=
  let temporary := st.temporary ++ buffer
  if F ≤ temporary.length then
    let input := (temporary.take F).zipWith (fun s w => s * w) window
    let out := fftFun input
    (some out, { temporary := temporary.drop F, fftInputBuffer := out })
  else
    (none, { st with temporary := temporary })

/-- A sequence of `process` calls: returns how many calls produced `some`
together with the final processor state. -/
def FftProcessor.processAll (F : ℕ) (window : List ℚ) (fftFun : List ℚ → List ℚ)
    (st : FftProcessor) : List (List ℚ) → ℕ × FftProcessor
  | [] => (0, st)
  | b :: bs =>
    let step := FftProcessor.process F window fftFun st b
    let rest := FftProcessor.processAll F window fftFun step.2 bs
    ((if step.1.isSome then 1 else 0) + rest.1, rest.2)

/-- Cumulative input length of a sequence of `process` calls. -/
def totalLen (inputs : List (List ℚ)) : ℕ := (inputs.map List.length).sum

theorem process_temp_length (F : ℕ) (window : List ℚ) (fftFun : List ℚ → List ℚ)
    (st : FftProcessor) (b : List ℚ) :
    (FftProcessor.process F window fftFun st b).2.temporary.length
      = if F ≤ st.temporary.length + b.length
        then st.temporary.length + b.length - F
        else st.temporary.length + b.length := by
  by_cases h : F ≤ st.temporary.length + b.length
  · simp [FftProcessor.process, h]
  · simp [FftProcessor.process, h]

theorem process_isSome (F : ℕ) (window : List ℚ) (fftFun : List ℚ → List ℚ)
    (st : FftProcessor) (b : List ℚ) :
    (FftProcessor.process F window fftFun st b).1.isSome
      = decide (F ≤ st.temporary.length + b.length) := by
  by_cases h : F ≤ st.temporary.length + b.length
  · simp [FftProcessor.process, h]
  · simp [FftProcessor.process, h]

/-- Invariant carried over a whole sequence of `process` calls: when each
call's input is at most `F` samples long, the carry stays below `F` and
`F` samples leave the carry per `some`. -/
theorem processAll_spec (F : ℕ) (window : List ℚ) (fftFun : List ℚ → List ℚ)
    (inputs : List (List ℚ)) :
    ∀ st : FftProcessor,
      st.temporary.length < F → (∀ b ∈ inputs, b.length ≤ F) →
      F * (FftProcessor.processAll F window fftFun st inputs).1
          + (FftProcessor.processAll F window fftFun st inputs).2.temporary.length
        = st.temporary.length + totalLen inputs
      ∧ (FftProcessor.processAll F window fftFun st inputs).2.temporary.length < F := by
  induction inputs with
  | nil =>
    intro st hst _
    exact ⟨by simp [FftProcessor.processAll, totalLen], by simpa [FftProcessor.processAll] using hst⟩
  | cons b bs ih =>
    intro st hst hb
    have hble : b.length ≤ F := hb b (by simp)
    have hrest : ∀ x ∈ bs, x.length ≤ F := fun x hx => hb x (by simp [hx])
    have hlen := process_temp_length F window fftFun st b
    have hsome := process_isSome F window fftFun st b
    by_cases h : F ≤ st.temporary.length + b.length
    · have hst' : (FftProcessor.process F window fftFun st b).2.temporary.length < F := by
        rw [hlen, if_pos h]; omega
      have ihr := ih (FftProcessor.process F window fftFun st b).2 hst' hrest
      refine ⟨?_, ?_⟩
      · simp only [FftProcessor.processAll, hsome, decide_eq_true_eq, if_pos h, totalLen,
          List.map_cons, List.sum_cons, Nat.mul_add, Nat.mul_one]
        have hlen' : (FftProcessor.process F window fftFun st b).2.temporary.length
            = st.temporary.length + b.length - F := by rw [hlen, if_pos h]
        have := ihr.1
        rw [hlen'] at this
        simp only [totalLen] at this
        omega
      · simpa only [FftProcessor.processAll] using ihr.2
    · have hst' : (FftProcessor.process F window fftFun st b).2.temporary.length < F := by
        rw [hlen, if_neg h]; omega
      have ihr := ih (FftProcessor.process F window fftFun st b).2 hst' hrest
      refine ⟨?_, ?_⟩
      · simp only [FftProcessor.processAll, hsome, decide_eq_true_eq, if_neg h, totalLen,
          List.map_cons, List.sum_cons, Nat.zero_add]
        have hlen' : (FftProcessor.process F window fftFun st b).2.temporary.length
            = st.temporary.length + b.length := by rw [hlen, if_neg h]
        have := ihr.1
        rw [hlen'] at this
        simp only [totalLen] at this
        omega
      · simpa only [FftProcessor.processAll] using ihr.2

/-- C2 counterexample: a single `process` call whose input holds 2×FFT_SIZE
samples (FFT_SIZE = 2, input `[1,2,3,4]`) returns `some` once, not
⌊4/2⌋ = 2 times, and retains 2 samples, not 4 mod 2 = 0: the claim as
stated is false. -/
theorem fft_process_count_counterexample :
    (FftProcessor.processAll 2 [1, 1] id .fresh [[1, 2, 3, 4]]).1 = 1
    ∧ (FftProcessor.processAll 2 [1, 1] id .fresh [[1, 2, 3, 4]]).1
        ≠ totalLen [[1, 2, 3, 4]] / 2
    ∧ (FftProcessor.processAll 2 [1, 1] id .fresh [[1, 2, 3, 4]]).2.temporary.length
        ≠ totalLen [[1, 2, 3, 4]] % 2 := by
  decide

/-- C2 (amended): for every sequence of `process` calls from a fresh (or
reset) processor in which each call's input holds at most FFT_SIZE samples,
the processor returns `some` exactly ⌊N / FFT_SIZE⌋ times where N is the
cumulative input length, each `some` consumes exactly FFT_SIZE samples from
the carry buffer, and N mod FFT_SIZE samples remain afterwards.  (A single
call may cross the threshold only once, so without the per-call bound a
call with ≥ 2×FFT_SIZE samples produces fewer results.) -/
theorem fft_process_exact_consumption (F : ℕ) (window : List ℚ)
    (fftFun : List ℚ → List ℚ) (hF : 0 < F) (inputs : List (List ℚ))
    (hlen : ∀ b ∈ inputs, b.length ≤ F) :
    (FftProcessor.processAll F window fftFun .fresh inputs).1 = totalLen inputs / F
    ∧ (FftProcessor.processAll F window fftFun .fresh inputs).2.temporary.length
        = totalLen inputs % F
    ∧ ∀ (st : FftProcessor) (b : List ℚ),
        (FftProcessor.process F window fftFun st b).1.isSome →
        (FftProcessor.process F window fftFun st b).2.temporary.length + F
          = st.temporary.length + b.length := by
  obtain ⟨heq, hlt⟩ := processAll_spec F window fftFun inputs .fresh
    (by simpa [FftProcessor.fresh] using hF) hlen
  have h0 : FftProcessor.fresh.temporary.length = 0 := rfl
  rw [h0, Nat.zero_add] at heq
  refine ⟨?_, ?_, ?_⟩
  · rw [← heq, Nat.mul_add_div hF, Nat.div_eq_of_lt hlt, Nat.add_zero]
  · rw [← heq, Nat.mul_add_mod, Nat.mod_eq_of_lt hlt]
  · intro st b hs
    rw [process_isSome, decide_eq_true_eq] at hs
    rw [process_temp_length, if_pos hs]
    omega

/-- C2 witness: three calls of one sample each with FFT_SIZE = 2 produce
⌊3/2⌋ = 1 result and leave 3 mod 2 = 1 sample in the carry. -/
theorem fft_process_exact_consumption_witness :
    (FftProcessor.processAll 2 [1, 1] id .fresh [[1], [2], [3]]).1
      = totalLen [[1], [2], [3]] / 2
    ∧ (FftProcessor.processAll 2 [1, 1] id .fresh [[1], [2], [3]]).2.temporary.length
        = totalLen [[1], [2], [3]] % 2 := by
  have h := fft_process_exact_consumption 2 [1, 1] id (by decide) [[1], [2], [3]] (by decide)
  exact ⟨h.1, h.2.1⟩

/-- C7 counterexample: one `process` call with input length 5 ≥ 2×FFT_SIZE
(FFT_SIZE = 2) leaves 3 samples in the carry buffer, so the carry is not
strictly below FFT_SIZE after every call: the claim as stated is false. -/
theorem fft_carry_counterexample :
    ¬ (FftProcessor.process 2 [1, 1] id .fresh [1, 2, 3, 4, 5]).2.temporary.length < 2 := by
  decide

/-- C7 (amended): after `reset` the carry buffer is empty, and after any
`process` call whose input holds at most FFT_SIZE samples — starting from a
carry below FFT_SIZE — the carry stays strictly below FFT_SIZE; the call
returns a transform exactly when the carry reaches FFT_SIZE, consuming
exactly FFT_SIZE samples.  A single call with 2×FFT_SIZE samples or more
violates the bound, because each call consumes at most one window. -/
theorem fft_carry_invariant (F : ℕ) (window : List ℚ) (fftFun : List ℚ → List ℚ)
    (st : FftProcessor) (b : List ℚ)
    (hst : st.temporary.length < F) (hb : b.length ≤ F) :
    (FftProcessor.process F window fftFun st b).2.temporary.length < F
    ∧ (FftProcessor.reset st).temporary.length = 0
    ∧ ((FftProcessor.process F window fftFun st b).1.isSome
        ↔ F ≤ st.temporary.length + b.length)
    ∧ (F ≤ st.temporary.length + b.length →
        (FftProcessor.process F window fftFun st b).2.temporary.length
          = st.temporary.length + b.length - F) := by
  have hlen := process_temp_length F window fftFun st b
  have hsome := process_isSome F window fftFun st b
  refine ⟨?_, rfl, ?_, ?_⟩
  · by_cases h : F ≤ st.temporary.length + b.length
    · rw [hlen, if_pos h]; omega
    · rw [hlen, if_neg h]; omega
  · rw [hsome]; simp
  · intro h; rw [hlen, if_pos h]

/-- C7 witness: a fresh processor fed 2 samples with FFT_SIZE = 2 keeps its
carry below 2. -/
theorem fft_carry_invariant_witness :
    (FftProcessor.fresh.temporary.length < 2 ∧ ([1, 2] : List ℚ).length ≤ 2)
    ∧ (FftProcessor.process 2 [1, 1] id .fresh [1, 2]).2.temporary.length < 2 := by
  refine ⟨⟨by decide, by decide⟩, ?_⟩
  exact (fft_carry_invariant 2 [1, 1] id .fresh [1, 2] (by decide) (by decide)).1

/-! ## Waveform consumer — `src/waveform.rs`

`Waveform` keeps the displayed envelope (`samples`), the estimated total
(`total_samples`), the playhead and the current generation counter.  UI-only
fields (canvas cache, command sender, bounds, cursor) carry no pipeline
state and are omitted.  `Waveform::update` is embedded on the message
variants that touch the modelled fields (lines 95-149). -/

structure Waveform where
  samples : List ℚ
  totalSamples : Option ℕ
  playPosition : ℚ
  currentGeneration : ℕ
deriving Repr, DecidableEq

inductive WaveformMessage where
  | loadingStarted (samplesCount : Option ℕ)
  | loadingFinished
  | clear
  | samplesReady (samples : List ℚ) (generation : ℕ)
  | playPosition (position : ℚ)
deriving Repr, DecidableEq

/-- `Waveform::update` (lines 95-149); `SamplesReady` appends the chunk only
when its generation tag equals `current_generation` (lines 111-119). -/
def Waveform.update (st : Waveform) : WaveformMessage → Waveform
  | .loadingStarted samplesCount =>
      { st with samples := [], totalSamples := samplesCount }
  | .loadingFinished => st
  | .clear => { st with samples := [], totalSamples := none }
  | .samplesReady samples generation =>
      if st.currentGeneration = generation then
        { st with samples := st.samples ++ samples }
      else st
  | .playPosition position => { st with playPosition := position }

/-- C1: a `SamplesReady` message whose generation tag differs from
`current_generation` leaves the stored envelope samples unchanged; with a
matching tag the chunk's samples are appended in order. -/
theorem waveform_generation_filter (st : Waveform) (chunk : List ℚ) (g : ℕ) :
    (g ≠ st.currentGeneration →
      (st.update (.samplesReady chunk g)).samples = st.samples)
    ∧ (g = st.currentGeneration →
      (st.update (.samplesReady chunk g)).samples = st.samples ++ chunk) := by
  constructor
  · intro h
    have : ¬ st.currentGeneration = g := fun hc => h hc.symm
    simp [Waveform.update, this]
  · intro h
    simp [Waveform.update, h]

/-- C1 witness: with `current_generation = 1`, a chunk tagged 0 is dropped
and a chunk tagged 1 is appended. -/
theorem waveform_generation_filter_witness :
    ((Waveform.mk [5] (some 10) 0 1).update (.samplesReady [7] 0)).samples = [5]
    ∧ ((Waveform.mk [5] (some 10) 0 1).update (.samplesReady [7] 1)).samples = [5, 7] := by
  constructor
  · exact (waveform_generation_filter (Waveform.mk [5] (some 10) 0 1) [7] 0).1 (by decide)
  · exact (waveform_generation_filter (Waveform.mk [5] (some 10) 0 1) [7] 1).2 (by decide)

/-! ## Sample tap — `SourcePicker` in `src/audio.rs` (lines 229-324)

The tap wraps the decoder: every decoded sample is pushed into a fixed-size
block; a full block is sent to the visualization fan-out as
`AudioBuffer(channels, samples)`.  The decoder is embedded as the list of
its remaining samples; the channel count and sample rate are constants of
the source.  `next` returns the forwarded sample, the new tap state, and
the list of blocks emitted during the call. -/

structure SourcePicker where
  buffer : List ℚ
  bufferCapacity : ℕ
  channels : ℕ
  source : List ℚ
deriving Repr, DecidableEq

/-- `SourcePicker::submit_buffer` (lines 266-276): sends the current block
and clears it. -/
def SourcePicker.submitBuffer (sp : SourcePicker) : SourcePicker × (ℕ × List ℚ) :=
  ({ sp with buffer := [] }, (sp.channels, sp.buffer))

/-- `SourcePicker::push_sample` (lines 259-264). -/
def SourcePicker.pushSample (sp : SourcePicker) (s : ℚ) : SourcePicker × List (ℕ × List ℚ) :=
  let sp := { sp with buffer := sp.buffer ++ [s] }
  if sp.buffer.length = sp.bufferCapacity then
    let r := sp.submitBuffer
    (r.1, [r.2])
  else (sp, [])

/-- `Iterator::next for SourcePicker` (lines 309-322).  On end-of-stream the
source first clears the pending block and then submits, so exactly the
empty block is sent. -/
def SourcePicker.next (sp : SourcePicker) : Option ℚ × SourcePicker × List (ℕ × List ℚ) :=
  match sp.source with
  | s :: rest =>
    let r := SourcePicker.pushSample { sp with source := rest } s
    (some s, r.1, r.2)
  | [] =>
    let r := SourcePicker.submitBuffer { sp with buffer := [] }
    (none, r.1, [r.2])

/-- C4 counterexample: a tap holding the partial block `[1]` (capacity 2)
whose source is exhausted emits only the empty block — the pending partial
block is discarded, not flushed first as the claim states. -/
theorem sourcePicker_eos_counterexample :
    (SourcePicker.next ⟨[1], 2, 1, []⟩).2.2 = [(1, [])]
    ∧ (SourcePicker.next ⟨[1], 2, 1, []⟩).2.2 ≠ [(1, [1]), (1, [])] := by
  decide

/-- C4 (amended): when the underlying source reaches end-of-stream, the tap
discards any partial block it had accumulated and emits exactly one
explicit empty block; the final short block is never emitted. -/
theorem sourcePicker_eos_flush (sp : SourcePicker) (h : sp.source = []) :
    (SourcePicker.next sp).1 = none
    ∧ (SourcePicker.next sp).2.2 = [(sp.channels, [])]
    ∧ (SourcePicker.next sp).2.1.buffer = [] := by
  refine ⟨?_, ?_, ?_⟩ <;>
    simp [SourcePicker.next, SourcePicker.submitBuffer, h]

/-- C4 witness: the tap with pending block `[1]` and exhausted source. -/
theorem sourcePicker_eos_flush_witness :
    (SourcePicker.next ⟨[1], 2, 1, []⟩).1 = none
    ∧ (SourcePicker.next ⟨[1], 2, 1, []⟩).2.2 = [(1, [])]
    ∧ (SourcePicker.next ⟨[1], 2, 1, []⟩).2.1.buffer = [] :=
  sourcePicker_eos_flush ⟨[1], 2, 1, []⟩ rfl

/-! ## Audio-loop command handlers — `run_audio_player` in `src/audio.rs`

The loop's local state is `sink`, `mixer`, `current_file_path` and
`current_file_duration` (lines 120-129).  A rodio `Sink` is embedded as an
identity (fresh sinks get fresh identities, mirroring
`rodio::Sink::connect_new` creating a new sink each time) plus its queue of
appended sources; a decoded source is embedded by its optional total
duration.  `File::open` plus `Decoder::new` (the `create_source` closure)
are combined into one environment parameter `openDecode`, and the outcome
of `sink.try_seek` is the parameter `seekSucceeds`. -/

abbrev AudioPath := String

structure AudioSource where
  totalDuration : Option ℚ
deriving Repr, DecidableEq

structure Sink where
  sinkId : ℕ
  queue : List AudioSource
deriving Repr, DecidableEq

structure AudioLoop where
  sink : Option Sink
  mixer : Bool
  currentFilePath : Option AudioPath
  currentFileDuration : Option ℚ
  nextSinkId : ℕ
deriving Repr, DecidableEq

/-- `AudioCommand::Play(path)` (lines 143-160): when the mixer exists, a
fresh sink unconditionally replaces the current one; only if open and
decode succeed are the path and duration recorded and the source appended
and played. -/
def handlePlay (openDecode : AudioPath → Option AudioSource) (path : AudioPath)
    (st : AudioLoop) : AudioLoop :=
  if st.mixer then
    let freshSink : Sink := { sinkId := st.nextSinkId, queue := [] }
    match openDecode path with
    | some source =>
        { sink := some { freshSink with queue := [source] },
          mixer := st.mixer,
          currentFilePath := some path,
          currentFileDuration := source.totalDuration,
          nextSinkId := st.nextSinkId + 1 }
    | none =>
        { st with sink := some freshSink, nextSinkId := st.nextSinkId + 1 }
  else st

/-- `AudioCommand::SetPosition(position)` (lines 196-215).  With no sink or
no known duration the command is a no-op.  Otherwise, an empty sink is
refilled from `current_file_path` when possible, and then
`sink.try_seek(position).unwrap()` runs: an `Err` from the underlying seek
panics, modelled by `Except.error`. -/
def handleSetPosition (openDecode : AudioPath → Option AudioSource)
    (seekSucceeds : Bool) (position : ℚ) (st : AudioLoop) :
    Except String AudioLoop :=
  match st.sink with
  | none => .ok st
  | some sink =>
    match st.currentFileDuration with
    | none => .ok st
    | some duration =>
      let _target := duration * position
      let sink :=
        if sink.queue.isEmpty then
          match st.currentFilePath with
          | some path =>
            match openDecode path with
            | some source => { sink with queue := [source] }
            | none => sink
          | none => sink
        else sink
      if seekSucceeds then .ok { st with sink := some sink }
      else .error "called Result::unwrap on an Err value: try_seek failed"

/-- An audio-loop state in which a source is playing. -/
def playingState : AudioLoop :=
  { sink := some { sinkId := 0, queue := [{ totalDuration := some 10 }] },
    mixer := true,
    currentFilePath := some "old.wav",
    currentFileDuration := some 10,
    nextSinkId := 1 }

/-- C3 counterexample: with a source playing, a `Play` whose open/decode
fails still replaces the sink — the previously playing output is torn down
even though decoding failed, contradicting the claim that teardown happens
only on success. -/
theorem play_failure_counterexample :
    (handlePlay (fun _ => none) "missing.wav" playingState).sink ≠ playingState.sink := by
  decide

/-- C3 (amended): when open/decode fails, `current_file_path` and
`current_file_duration` are left unmodified; but whenever the mixer is
initialized the existing sink is still torn down and replaced by a fresh
empty sink, so the currently playing output stops.  Only when the mixer is
uninitialized does the command leave the state fully unchanged. -/
theorem play_failure_behavior (openDecode : AudioPath → Option AudioSource)
    (path : AudioPath) (st : AudioLoop) (hfail : openDecode path = none) :
    (handlePlay openDecode path st).currentFilePath = st.currentFilePath
    ∧ (handlePlay openDecode path st).currentFileDuration = st.currentFileDuration
    ∧ (st.mixer = true →
        (handlePlay openDecode path st).sink
          = some { sinkId := st.nextSinkId, queue := [] })
    ∧ (st.mixer = false → handlePlay openDecode path st = st) := by
  by_cases hm : st.mixer
  · refine ⟨?_, ?_, ?_, ?_⟩ <;> simp [handlePlay, hm, hfail]
  · refine ⟨?_, ?_, ?_, ?_⟩ <;> simp [handlePlay, hm]

/-- C3 witness: a failing `Play` on a playing state keeps path and duration
and installs a fresh empty sink. -/
theorem play_failure_behavior_witness :
    (handlePlay (fun _ => none) "missing.wav" playingState).currentFilePath
      = playingState.currentFilePath
    ∧ (handlePlay (fun _ => none) "missing.wav" playingState).currentFileDuration
        = playingState.currentFileDuration
    ∧ (handlePlay (fun _ => none) "missing.wav" playingState).sink
        = some { sinkId := playingState.nextSinkId, queue := [] } := by
  have h := play_failure_behavior (fun _ => none) "missing.wav" playingState rfl
  exact ⟨h.1, h.2.1, h.2.2.1 rfl⟩

/-- An audio-loop state with a sink and a known duration, about to seek. -/
def seekState : AudioLoop :=
  { sink := some { sinkId := 3, queue := [{ totalDuration := some 4 }] },
    mixer := true,
    currentFilePath := some "track.wav",
    currentFileDuration := some 4,
    nextSinkId := 4 }

/-- C6: handling `SetPosition` with a sink and a known duration calls
`sink.try_seek(position).unwrap()`; when the underlying seek fails the
handler panics, contradicting the claim that it never panics.  (The no-sink
and unknown-duration cases are genuine no-ops.) -/
theorem setPosition_seek_failure_panics :
    handleSetPosition (fun _ => none) false (1 / 2) seekState
      = .error "called Result::unwrap on an Err value: try_seek failed"
    ∧ handleSetPosition (fun _ => none) false (1 / 2) { seekState with sink := none }
        = .ok { seekState with sink := none }
    ∧ handleSetPosition (fun _ => none) false (1 / 2)
          { seekState with currentFileDuration := none }
        = .ok { seekState with currentFileDuration := none } := by
  refine ⟨rfl, rfl, rfl⟩

/-! ## Spectrum analyzer — `src/spectrum.rs`

`Spectrum` inlines its own copy of the FFT-with-carry logic (fields
`temporary`, `sample_rate`, `display_buffer`; the scratch buffers, window
and plan are per-call constants as in `FftProcessor`).  The bin/dB pipeline
of lines 86-100 (magnitude, `log10`, clamp) operates on `f32` transcendental
functions and is abstracted as the parameter `computeBins`, taking the
current sample rate and the transform output. -/

structure Spectrum where
  temporary : List ℚ
  sampleRate : ℕ
  displayBuffer : List ℚ
deriving Repr, DecidableEq

inductive SpectrumMessage where
  | buffer (b : List ℚ)
  | sampleRateChanged (r : ℕ)
deriving Repr, DecidableEq

/-- `Spectrum::process_buffer` (lines 69-104). -/
def Spectrum.processBuffer (F : ℕ) (window : List ℚ) (fftFun : List ℚ → List ℚ)
    (computeBins : ℕ → List ℚ → List ℚ) (st : Spectrum) (b : List ℚ) : Spectrum :=
  let temporary := st.temporary ++ b
  if F ≤ temporary.length then
    let input := (temporary.take F).zipWith (fun s w => s * w) window
    let out := fftFun input
    { temporary := temporary.drop F,
      sampleRate := st.sampleRate,
      displayBuffer := computeBins st.sampleRate out }
  else
    { st with temporary := temporary }

/-- `Spectrum::update` (lines 53-67): an empty buffer clears the display;
`SampleRateChanged` records the new rate. -/
def Spectrum.update (F : ℕ) (window : List ℚ) (fftFun : List ℚ → List ℚ)
    (computeBins : ℕ → List ℚ → List ℚ) (st : Spectrum) :
    SpectrumMessage → Spectrum
  | .buffer b =>
      if b = [] then { st with displayBuffer := [] }
      else Spectrum.processBuffer F window fftFun computeBins st b
  | .sampleRateChanged r => { st with sampleRate := r }

/-! ## Tuner — `src/tuner.rs`

`Tuner` holds the displayed note, the sample rate and its own
`FftProcessor<16384>`.  The magnitude / harmonic-product-spectrum / pitch
pipeline of lines 66-117 (sqrt, log2, argmax, note naming) is abstracted as
the parameter `noteOf`, taking the sample rate and the transform output.
The near-silence gate `average >= 1e-6` (line 64) is kept exactly. -/

structure Tuner where
  display : String
  sampleRate : ℕ
  processor : FftProcessor
deriving Repr, DecidableEq

inductive TunerMessage where
  | buffer (b : List ℚ)
  | sampleRateChanged (r : ℕ)
  | sampleSelectionChanged
deriving Repr, DecidableEq

/-- `compute_signal_power` (lines 127-131). -/
def compute_signal_power (samples : List ℚ) : ℚ :=
  (samples.map fun x => x * x).sum / samples.length

/-- `Tuner::process_buffer` (lines 58-120). -/
def Tuner.processBuffer (F : ℕ) (window : List ℚ) (fftFun : List ℚ → List ℚ)
    (noteOf : ℕ → List ℚ → String) (st : Tuner) (b : List ℚ) : Tuner :=
  if 1 / 1000000 ≤ compute_signal_power b then
    let r := FftProcessor.process F window fftFun st.processor b
    match r.1 with
    | some out => { st with processor := r.2, display := noteOf st.sampleRate out }
    | none => { st with processor := r.2 }
  else st

/-- `Tuner::update` (lines 39-56): an empty buffer clears the display;
`SampleRateChanged` records the new rate; `SampleSelectionChanged` resets
the FFT carry. -/
def Tuner.update (F : ℕ) (window : List ℚ) (fftFun : List ℚ → List ℚ)
    (noteOf : ℕ → List ℚ → String) (st : Tuner) : TunerMessage → Tuner
  | .buffer b =>
      if b = [] then { st with display := "" }
      else Tuner.processBuffer F window fftFun noteOf st b
  | .sampleRateChanged r => { st with sampleRate := r }
  | .sampleSelectionChanged => { st with processor := st.processor.reset }

/-- C5 counterexample: a `SampleRateChanged` message leaves a pending
sample in the Spectrum's carry buffer and in the Tuner's processor carry —
neither analyzer clears its FFT carry on a sample-rate change, contradicting
the claim. -/
theorem sampleRate_carry_counterexample :
    (Spectrum.update 2048 [] id (fun _ _ => []) ⟨[1], 0, []⟩
        (.sampleRateChanged 48000)).temporary ≠ []
    ∧ (Tuner.update 16384 [] id (fun _ _ => "") ⟨"", 0, ⟨[1], []⟩⟩
        (.sampleRateChanged 48000)).processor.temporary ≠ [] := by
  decide

/-- C5 (amended): handling `SampleRateChanged` only records the new sample
rate in both analyzers, leaving every other field — in particular the FFT
carry buffer — untouched.  The Tuner clears its carry only on
`SampleSelectionChanged`; the Spectrum has no carry-clearing path at all. -/
theorem sampleRateChanged_records_rate_only (F : ℕ) (window : List ℚ)
    (fftFun : List ℚ → List ℚ) (computeBins : ℕ → List ℚ → List ℚ)
    (noteOf : ℕ → List ℚ → String) (sst : Spectrum) (tst : Tuner) (r : ℕ) :
    Spectrum.update F window fftFun computeBins sst (.sampleRateChanged r)
      = { sst with sampleRate := r }
    ∧ Tuner.update F window fftFun noteOf tst (.sampleRateChanged r)
        = { tst with sampleRate := r }
    ∧ (Tuner.update F window fftFun noteOf tst .sampleSelectionChanged).processor.temporary
        = [] := by
  exact ⟨rfl, rfl, rfl⟩

/-! ## Visualization fan-out — `Visualization::vectorscope` in
`src/visualization.rs` (lines 75-101)

The Rust loop for the stereo case is
`for i in (0..samples.len()).step_by(2) { let left = samples[i]; let right
= samples[i + 1]; … }`: it consumes two interleaved samples per step, and
for an odd-length slice the last step reads `samples[i + 1]` one past the
end.  The embedding consumes two samples per recursion step and returns
`none` exactly when that out-of-range read happens (a Rust index panic). -/

/-- The stereo loop of lines 90-95; `none` models the out-of-bounds read of
`samples[i + 1]` on the dangling last sample. -/
def stereoPoints : List ℚ → Option (List (ℚ × ℚ))
  | [] => some []
  | [_] => none
  | a :: b :: rest => (stereoPoints rest).map (fun l => (a, b) :: l)

/-- Spec-side pairing of consecutive interleaved samples (for comparison
with the loop translated from the source): complete pairs only. -/
def interleavedPairs : List ℚ → List (ℚ × ℚ)
  | a :: b :: rest => (a, b) :: interleavedPairs rest
  | _ => []

/-- `Visualization::vectorscope(channels, samples)` (lines 75-101). -/
def vectorscope (channels : ℕ) (samples : List ℚ) : Option (List (ℚ × ℚ)) :=
  if channels = 0 ∨ samples = [] then some []
  else
    match channels with
    | 1 => some (samples.map fun s => (s, s))
    | 2 => stereoPoints samples
    | _ => some []

theorem stereoPoints_even :
    ∀ l : List ℚ, l.length % 2 = 0 → stereoPoints l = some (interleavedPairs l)
  | [], _ => rfl
  | [_], h => by simp at h
  | a :: b :: rest, h => by
      have hr : rest.length % 2 = 0 := by
        simp only [List.length_cons] at h; omega
      simp [stereoPoints, interleavedPairs, stereoPoints_even rest hr]

theorem stereoPoints_odd :
    ∀ l : List ℚ, l.length % 2 = 1 → stereoPoints l = none
  | [], h => by simp at h
  | [_], _ => rfl
  | a :: b :: rest, h => by
      have hr : rest.length % 2 = 1 := by
        simp only [List.length_cons] at h; omega
      simp [stereoPoints, stereoPoints_odd rest hr]

/-- C8 counterexample: the stereo transform applied to the one-sample block
`[1]` reads past the end of the slice (a panic in the source) instead of
producing the empty list of complete pairs, so the mapping claim does not
hold for every sample block. -/
theorem vectorscope_odd_counterexample :
    vectorscope 2 [1] = none ∧ vectorscope 2 [1] ≠ some (interleavedPairs [1]) := by
  decide

/-- C8 (amended): channel count 1 yields one point `(s, s)` per sample and
channel count ≥ 3 yields an empty point list, for every block; channel
count 2 yields one point `(left, right)` per consecutive interleaved pair
for every even-length block (odd-length stereo blocks instead hit the
out-of-bounds read). -/
theorem vectorscope_mapping (samples : List ℚ) :
    vectorscope 1 samples = some (samples.map fun s => (s, s))
    ∧ (samples.length % 2 = 0 →
        vectorscope 2 samples = some (interleavedPairs samples))
    ∧ ∀ c, 3 ≤ c → vectorscope c samples = some [] := by
  refine ⟨?_, ?_, ?_⟩
  · cases samples with
    | nil => rfl
    | cons a rest => simp [vectorscope]
  · intro h
    cases samples with
    | nil => rfl
    | cons a rest => simp [vectorscope, stereoPoints_even _ h]
  · intro c hc
    obtain ⟨n, rfl⟩ : ∃ n, c = n + 3 := ⟨c - 3, by omega⟩
    cases samples with
    | nil => simp [vectorscope]
    | cons a rest => rfl

/-- C8 witness: concrete mono, even-length stereo and 3-channel blocks. -/
theorem vectorscope_mapping_witness :
    vectorscope 1 [1, 2] = some [(1, 1), (2, 2)]
    ∧ vectorscope 2 [1, 2] = some [(1, 2)]
    ∧ vectorscope 3 [1, 2] = some [] := by
  have h := vectorscope_mapping [1, 2]
  refine ⟨?_, ?_, h.2.2 3 (by omega)⟩
  · simpa using h.1
  · simpa [interleavedPairs] using h.2.1 (by decide)

/-- C10: for channel count 2 the transform pairs indices `i` and `i + 1`
for every even `i` below the slice length, so an odd-length stereo slice
reaches the out-of-range branch at the last step, while every even-length
stereo slice stays in bounds. -/
theorem vectorscope_stereo_bounds (samples : List ℚ) :
    (samples.length % 2 = 1 → vectorscope 2 samples = none)
    ∧ (samples.length % 2 = 0 → (vectorscope 2 samples).isSome = true) := by
  constructor
  · intro h
    cases samples with
    | nil => simp at h
    | cons a rest => simp [vectorscope, stereoPoints_odd _ h]
  · intro h
    cases samples with
    | nil => rfl
    | cons a rest => simp [vectorscope, stereoPoints_even _ h]

/-- C10 witness: the odd-length stereo slice `[1, 2, 3]` is out of bounds,
the even-length slice `[1, 2]` is not. -/
theorem vectorscope_stereo_bounds_witness :
    vectorscope 2 [1, 2, 3] = none ∧ (vectorscope 2 [1, 2]).isSome = true :=
  ⟨(vectorscope_stereo_bounds [1, 2, 3]).1 (by decide),
   (vectorscope_stereo_bounds [1, 2]).2 (by decide)⟩

/-! ## File admission and selection dispatch — `src/main.rs`

`display_file` (lines 340-352) rejects dot-files and then admits by
extension allow-list; `SEx::update` on `Message::SelectFile` (lines
242-256) plays and shows a selected path exactly when it is a file passing
`display_file`, and otherwise routes to the `SelectFile(None)` arm, which
stops audio and clears the waveform.  File names are embedded as character
lists; `path.is_file()` is a filesystem fact and enters as a boolean. -/

/-- Content after the last `'.'` of a file-name tail, if any. -/
def extAfterLastDot : List Char → Option (List Char)
  | [] => none
  | c :: rest =>
    match extAfterLastDot rest with
    | some e => some e
    | none => if c = '.' then some rest else none

/-- Rust `Path::extension` on a file name: the portion after the last `'.'`,
where a leading dot starts the stem and yields no extension. -/
def fileExtension : List Char → Option (List Char)
  | [] => none
  | _ :: rest => extAfterLastDot rest

/-- The check `name.starts_with('.')` of lines 343-348. -/
def startsWithDot : List Char → Bool
  | '.' :: _ => true
  | _ => false

/-- `display_file` (lines 340-352): hidden files are rejected, then the
extension is matched against `wav | flac | ogg | mp3`. -/
def display_file (fileName : List Char) : Bool :=
  if startsWithDot fileName then false
  else
    match fileExtension fileName with
    | some e =>
        (e == "wav".data) || (e == "flac".data) || (e == "ogg".data) || (e == "mp3".data)
    | none => false

/-- The allow-list of the spec. -/
def audio_extensions : List (List Char) :=
  ["wav".data, "flac".data, "ogg".data, "mp3".data]

/-- What `Message::SelectFile` triggers (lines 242-256): `Audio::Play` plus
`Waveform::Show`, or `Audio::Stop` plus `Waveform::Clear` (the unsupported
`Some` case re-dispatches `SelectFile(None)`, whose arm stops and clears). -/
inductive SelectEffect where
  | playAndShow
  | stopAndClear
deriving Repr, DecidableEq

/-- `SEx::update` on `Message::SelectFile`; the input carries
`path.is_file()` and the file name, or `none` for `SelectFile(None)`. -/
def selectFile : Option (Bool × List Char) → SelectEffect
  | some (isFile, fileName) =>
      if isFile && display_file fileName then .playAndShow else .stopAndClear
  | none => .stopAndClear

theorem display_file_iff (fileName : List Char) :
    display_file fileName = true
      ↔ startsWithDot fileName = false
        ∧ ∃ e, fileExtension fileName = some e ∧ e ∈ audio_extensions := by
  by_cases hd : startsWithDot fileName = true
  · simp [display_file, hd]
  · rw [Bool.not_eq_true] at hd
    cases hext : fileExtension fileName with
    | none => simp [display_file, hd, hext]
    | some e => simp [display_file, hd, hext, audio_extensions, or_assoc]

/-- C9 counterexample: the hidden file `.hidden.wav` is a file whose
extension is `wav`, yet selecting it stops audio and clears the waveform —
`display_file` rejects dot-files before consulting the extension, so the
claimed equivalence fails. -/
theorem selectFile_hidden_counterexample :
    fileExtension ".hidden.wav".data = some "wav".data
    ∧ selectFile (some (true, ".hidden.wav".data)) = .stopAndClear := by
  decide

/-- C9 (amended): `SelectFile(Some(path))` triggers `Audio::Play` and
`Waveform::Show` if and only if the path is a file, its name does not start
with a dot, and its extension is one of wav, flac, ogg, mp3; otherwise —
including `SelectFile(None)` — it triggers `Audio::Stop` and
`Waveform::Clear`. -/
theorem selectFile_allowlist (isFile : Bool) (fileName : List Char) :
    (selectFile (some (isFile, fileName)) = .playAndShow
      ↔ isFile = true ∧ startsWithDot fileName = false
          ∧ ∃ e, fileExtension fileName = some e ∧ e ∈ audio_extensions)
    ∧ selectFile none = .stopAndClear := by
  refine ⟨?_, rfl⟩
  have hif : selectFile (some (isFile, fileName)) = .playAndShow
      ↔ (isFile && display_file fileName) = true := by
    by_cases h : (isFile && display_file fileName) = true <;> simp [selectFile, h]
  rw [hif, Bool.and_eq_true, display_file_iff]

/-- C9 witness: a regular `.wav` file plays and shows; a MIDI file and
`SelectFile(None)` stop and clear. -/
theorem selectFile_allowlist_witness :
    selectFile (some (true, "kick.wav".data)) = .playAndShow
    ∧ selectFile (some (true, "song.mid".data)) = .stopAndClear
    ∧ selectFile none = .stopAndClear := by
  refine ⟨?_, by decide, (selectFile_allowlist true "kick.wav".data).2⟩
  exact (selectFile_allowlist true "kick.wav".data).1.mpr
    ⟨rfl, rfl, "wav".data, by decide, by decide⟩

end SEx
